import Mathlib

/-!
# Verification of the trmnl-japanese extraction and daily-selection core

Shallow embedding of the core logic of the repository:

* `src/main.py` — `get_daily_meaning_wrappers` (date-seeded daily selection
  over the SQLite store, lines 36–99);
* `src/draw.py` — `extract_meaning` (lines 47–75), `extract_representation`
  (lines 113–164) and the offset-mode seed of `generate_word_date`
  (lines 401–406);
* `src/jishi scrape/main.py` — `extract_words_with_sentences` (lines 88–146)
  and `store_extracted_results` (lines 176–237).

Machine integers are modelled as `Nat` with explicit `% 2 ^ w` where the
Python/SQLite code wraps.  Fallible code returns `Except`.  HTML values are
modelled as an explicit tree type (`Node`); BeautifulSoup's `find`/`find_all`
become pre-order descendant searches on that tree.
-/

set_option maxRecDepth 8000

/-! ## Bytes, hex, SHA-256 and MD5

`src/main.py` line 62 computes
`int(hashlib.sha256(date_str.encode()).hexdigest(), 16) % 2**31`
and `src/draw.py` line 403 computes
`int(hashlib.md5(date_str.encode()).hexdigest(), 16) % (2**32)`.
Both hashes are embedded in full, operating on the UTF-8 bytes of the
input string exactly as `str.encode()` produces them. -/

/-- UTF-8 encoding of one character (what Python's `str.encode()` emits). -/
def utf8Bytes (c : Char) : List Nat :=
  let n := c.toNat
  if n < 0x80 then [n]
  else if n < 0x800 then [0xC0 ||| (n >>> 6), 0x80 ||| (n &&& 0x3F)]
  else if n < 0x10000 then
    [0xE0 ||| (n >>> 12), 0x80 ||| ((n >>> 6) &&& 0x3F), 0x80 ||| (n &&& 0x3F)]
  else
    [0xF0 ||| (n >>> 18), 0x80 ||| ((n >>> 12) &&& 0x3F),
     0x80 ||| ((n >>> 6) &&& 0x3F), 0x80 ||| (n &&& 0x3F)]

/-- UTF-8 bytes of a string. -/
def strBytes (s : String) : List Nat := s.data.flatMap utf8Bytes

/-- `2 ^ 32`, the modulus of all 32-bit hash arithmetic. -/
def w32 : Nat := 2 ^ 32

/-- 32-bit rotate right. -/
def rotr32 (n x : Nat) : Nat := ((x >>> n) ||| (x <<< (32 - n))) % w32

/-- 32-bit rotate left. -/
def rotl32 (n x : Nat) : Nat := ((x <<< n) ||| (x >>> (32 - n))) % w32

/-- SHA-256 padding: append `0x80`, zero bytes to 56 mod 64, then the 8-byte
big-endian bit length. -/
def sha256Pad (msg : List Nat) : List Nat :=
  let len := msg.length
  let zeros := (55 + 64 - (len % 64)) % 64
  let bitLen := len * 8
  msg ++ [0x80] ++ List.replicate zeros 0 ++
    [(bitLen >>> 56) % 256, (bitLen >>> 48) % 256, (bitLen >>> 40) % 256,
     (bitLen >>> 32) % 256, (bitLen >>> 24) % 256, (bitLen >>> 16) % 256,
     (bitLen >>> 8) % 256, bitLen % 256]

/-- Fuel-driven chunking helper (structural, so the kernel can evaluate it). -/
def chunksAux (n : Nat) : Nat → List α → List (List α)
  | _, [] => []
  | 0, _ => []
  | fuel + 1, l => l.take n :: chunksAux n fuel (l.drop n)

/-- Split a list into consecutive chunks of `n` elements. -/
def chunksOf (n : Nat) (l : List α) : List (List α) := chunksAux n l.length l

/-- Big-endian 32-bit words from a byte list. -/
def wordsBE : List Nat → List Nat
  | b0 :: b1 :: b2 :: b3 :: rest => (((b0 * 256 + b1) * 256 + b2) * 256 + b3) :: wordsBE rest
  | _ => []

/-- The SHA-256 round constants. -/
def shaK : List Nat :=
  [1116352408, 1899447441, 3049323471, 3921009573, 961987163, 1508970993,
   2453635748, 2870763221, 3624381080, 310598401, 607225278, 1426881987,
   1925078388, 2162078206, 2614888103, 3248222580, 3835390401, 4022224774,
   264347078, 604807628, 770255983, 1249150122, 1555081692, 1996064986,
   2554220882, 2821834349, 2952996808, 3210313671, 3336571891, 3584528711,
   113926993, 338241895, 666307205, 773529912, 1294757372, 1396182291,
   1695183700, 1986661051, 2177026350, 2456956037, 2730485921, 2820302411,
   3259730800, 3345764771, 3516065817, 3600352804, 4094571909, 275423344,
   430227734, 506948616, 659060556, 883997877, 958139571, 1322822218,
   1537002063, 1747873779, 1955562222, 2024104815, 2227730452, 2361852424,
   2428436474, 2756734187, 3204031479, 3329325298]

/-- The SHA-256 initial hash state. -/
def sha256Start : List Nat :=
  [1779033703, 3144134277, 1013904242, 2773480762,
   1359893119, 2600822924, 528734635, 1541459225]

/-- Extend the SHA-256 message schedule by one word. -/
def extendW (w : List Nat) : List Nat :=
  let n := w.length
  let x15 := w.getD (n - 15) 0
  let x2 := w.getD (n - 2) 0
  let s0 := (rotr32 7 x15) ^^^ (rotr32 18 x15) ^^^ (x15 >>> 3)
  let s1 := (rotr32 17 x2) ^^^ (rotr32 19 x2) ^^^ (x2 >>> 10)
  w ++ [(w.getD (n - 16) 0 + s0 + w.getD (n - 7) 0 + s1) % w32]

/-- One SHA-256 compression round; `kw` is the already-added `K[i] + W[i]`. -/
def sha256Round (st : List Nat) (kw : Nat) : List Nat :=
  match st with
  | [a, b, c, d, e, f, g, h] =>
    let S1 := (rotr32 6 e) ^^^ (rotr32 11 e) ^^^ (rotr32 25 e)
    let ch := (e &&& f) ^^^ ((e ^^^ (w32 - 1)) &&& g)
    let t1 := (h + S1 + ch + kw) % w32
    let S0 := (rotr32 2 a) ^^^ (rotr32 13 a) ^^^ (rotr32 22 a)
    let maj := (a &&& b) ^^^ (a &&& c) ^^^ (b &&& c)
    let t2 := (S0 + maj) % w32
    [(t1 + t2) % w32, a, b, c, (d + t1) % w32, e, f, g]
  | other => other

/-- SHA-256 compression of one 64-byte block. -/
def sha256Compress (h0 : List Nat) (block : List Nat) : List Nat :=
  let w := extendW^[48] (wordsBE block)
  let st := (List.zipWith (fun k wi => (k + wi) % w32) shaK w).foldl sha256Round h0
  List.zipWith (fun a b => (a + b) % w32) h0 st

/-- Big-endian bytes of a 32-bit word. -/
def wordBytesBE (w : Nat) : List Nat :=
  [(w >>> 24) % 256, (w >>> 16) % 256, (w >>> 8) % 256, w % 256]

/-- The 32 SHA-256 digest bytes of a string, as `hashlib.sha256(s.encode())`. -/
def sha256Bytes (s : String) : List Nat :=
  ((chunksOf 64 (sha256Pad (strBytes s))).foldl sha256Compress sha256Start).flatMap wordBytesBE

/-- Lower-case hex digit. -/
def hexChar (n : Nat) : Char :=
  if n < 10 then Char.ofNat (48 + n) else Char.ofNat (87 + n)

/-- Lower-case hex string of a byte list (Python's `.hexdigest()`). -/
def bytesHex (bs : List Nat) : String :=
  String.mk (bs.flatMap (fun b => [hexChar (b / 16), hexChar (b % 16)]))

/-- Value of one lower-case hex digit. -/
def hexVal (c : Char) : Nat :=
  if c.toNat ≥ 97 then c.toNat - 87 else c.toNat - 48

/-- Python's `int(s, 16)` on a lower-case hex string. -/
def intOfHex (s : String) : Nat := s.data.foldl (fun acc c => acc * 16 + hexVal c) 0

/-- The daily seed of `get_daily_meaning_wrappers`, src/main.py line 62:
`int(hashlib.sha256(date_str.encode()).hexdigest(), 16) % 2**31`. -/
def date_seed (date_str : String) : Nat :=
  intOfHex (bytesHex (sha256Bytes date_str)) % 2 ^ 31

/-! ### MD5, used by the offset-mode selection `generate_word_date` -/

/-- The MD5 sine-derived constants. -/
def md5K : List Nat :=
  [3614090360, 3905402710, 606105819, 3250441966, 4118548399, 1200080426,
   2821735955, 4249261313, 1770035416, 2336552879, 4294925233, 2304563134,
   1804603682, 4254626195, 2792965006, 1236535329, 4129170786, 3225465664,
   643717713, 3921069994, 3593408605, 38016083, 3634488961, 3889429448,
   568446438, 3275163606, 4107603335, 1163531501, 2850285829, 4243563512,
   1735328473, 2368359562, 4294588738, 2272392833, 1839030562, 4259657740,
   2763975236, 1272893353, 4139469664, 3200236656, 681279174, 3936430074,
   3572445317, 76029189, 3654602809, 3873151461, 530742520, 3299628645,
   4096336452, 1126891415, 2878612391, 4237533241, 1700485571, 2399980690,
   4293915773, 2240044497, 1873313359, 4264355552, 2734768916, 1309151649,
   4149444226, 3174756917, 718787259, 3951481745]

/-- The MD5 per-round shift amounts. -/
def md5S : List Nat :=
  [7, 12, 17, 22, 7, 12, 17, 22, 7, 12, 17, 22, 7, 12, 17, 22,
   5, 9, 14, 20, 5, 9, 14, 20, 5, 9, 14, 20, 5, 9, 14, 20,
   4, 11, 16, 23, 4, 11, 16, 23, 4, 11, 16, 23, 4, 11, 16, 23,
   6, 10, 15, 21, 6, 10, 15, 21, 6, 10, 15, 21, 6, 10, 15, 21]

/-- 32-bit bitwise complement. -/
def not32 (x : Nat) : Nat := x ^^^ (w32 - 1)

/-- MD5 padding: append `0x80`, zero bytes to 56 mod 64, then the 8-byte
little-endian bit length. -/
def md5Pad (msg : List Nat) : List Nat :=
  let len := msg.length
  let zeros := (55 + 64 - (len % 64)) % 64
  let bitLen := (len * 8) % 2 ^ 64
  msg ++ [0x80] ++ List.replicate zeros 0 ++
    [bitLen % 256, (bitLen >>> 8) % 256, (bitLen >>> 16) % 256, (bitLen >>> 24) % 256,
     (bitLen >>> 32) % 256, (bitLen >>> 40) % 256, (bitLen >>> 48) % 256, (bitLen >>> 56) % 256]

/-- Little-endian 32-bit words from a byte list. -/
def wordsLE : List Nat → List Nat
  | b0 :: b1 :: b2 :: b3 :: rest => (((b3 * 256 + b2) * 256 + b1) * 256 + b0) :: wordsLE rest
  | _ => []

/-- One MD5 round on state `[a, b, c, d]` with message words `m`. -/
def md5Round (m : List Nat) (st : List Nat) (i : Nat) : List Nat :=
  match st with
  | [a, b, c, d] =>
    let fg : Nat × Nat :=
      if i < 16 then ((b &&& c) ||| ((not32 b) &&& d), i)
      else if i < 32 then ((d &&& b) ||| ((not32 d) &&& c), (5 * i + 1) % 16)
      else if i < 48 then (b ^^^ c ^^^ d, (3 * i + 5) % 16)
      else (c ^^^ (b ||| (not32 d)), (7 * i) % 16)
    let f := (fg.1 + a + md5K.getD i 0 + m.getD fg.2 0) % w32
    [d, (b + rotl32 (md5S.getD i 0) f) % w32, b, c]
  | other => other

/-- MD5 compression of one 64-byte block. -/
def md5Compress (st : List Nat) (block : List Nat) : List Nat :=
  let m := wordsLE block
  let st' := (List.range 64).foldl (md5Round m) st
  List.zipWith (fun a b => (a + b) % w32) st st'

/-- The MD5 initial state. -/
def md5Start : List Nat := [1732584193, 4023233417, 2562383102, 271733878]

/-- Little-endian bytes of a 32-bit word. -/
def wordBytesLE (w : Nat) : List Nat :=
  [w % 256, (w >>> 8) % 256, (w >>> 16) % 256, (w >>> 24) % 256]

/-- The 16 MD5 digest bytes of a string, as `hashlib.md5(s.encode())`. -/
def md5Bytes (s : String) : List Nat :=
  ((chunksOf 64 (md5Pad (strBytes s))).foldl md5Compress md5Start).flatMap wordBytesLE

/-- The offset-mode seed of `generate_word_date`, src/draw.py line 403:
`int(hashlib.md5(date_str.encode()).hexdigest(), 16) % (2**32)`. -/
def generate_word_date_seed (date_str : String) : Nat :=
  intOfHex (bytesHex (md5Bytes date_str)) % 2 ^ 32

/-! ### The hex round trip

`int(h.hexdigest(), 16)` is the digest interpreted as a big-endian unsigned
integer.  These lemmas make that precise for claim C4. -/

/-- A byte list read as a big-endian unsigned integer. -/
def bytesToNatBE (bs : List Nat) : Nat := bs.foldl (fun acc b => acc * 256 + b) 0

theorem hexVal_hexChar : ∀ n < 16, hexVal (hexChar n) = n := by decide

theorem foldl_hex_of_bytes (bs : List Nat) :
    ∀ acc, (∀ b ∈ bs, b < 256) →
      (bs.flatMap (fun b => [hexChar (b / 16), hexChar (b % 16)])).foldl
          (fun acc c => acc * 16 + hexVal c) acc
        = bs.foldl (fun acc b => acc * 256 + b) acc := by
  induction bs with
  | nil => intro acc _; rfl
  | cons b bs ih =>
    intro acc h
    have hb : b < 256 := h b (List.mem_cons_self _ _)
    have h1 : b / 16 < 16 := by omega
    have h2 : b % 16 < 16 := by omega
    simp only [List.flatMap_cons, List.foldl_append, List.foldl_cons, List.foldl_nil]
    rw [hexVal_hexChar _ h1, hexVal_hexChar _ h2,
      ih _ (fun x hx => h x (List.mem_cons_of_mem _ hx))]
    congr 1
    omega

/-- Parsing the lower-case hex rendering of a byte list recovers its
big-endian value. -/
theorem intOfHex_bytesHex (bs : List Nat) (h : ∀ b ∈ bs, b < 256) :
    intOfHex (bytesHex bs) = bytesToNatBE bs :=
  foldl_hex_of_bytes bs 0 h

theorem sha256Bytes_lt_256 (s : String) : ∀ b ∈ sha256Bytes s, b < 256 := by
  intro b hb
  simp only [sha256Bytes, List.mem_flatMap] at hb
  obtain ⟨w, -, hw⟩ := hb
  simp only [wordBytesBE, List.mem_cons, List.not_mem_nil, or_false] at hw
  rcases hw with h | h | h | h <;> subst h <;> exact Nat.mod_lt _ (by norm_num)

/-- Modelled from the spec's words, for comparison with the source seed:
"the first 31 bits of SHA-256(dateString) interpreted as an unsigned big
integer, reduced mod 2^31" — the 31 most-significant bits of the 256-bit
digest. -/
def specSeedFirst31 (d : String) : Nat :=
  (bytesToNatBE (sha256Bytes d) >>> 225) % 2 ^ 31

/-- C4 counterexample: at the concrete date "2024-01-01" the seed computed
by src/main.py line 62 (the full digest reduced mod 2^31, i.e. its 31
low-order bits) differs from the spec's "first 31 bits of SHA-256(d)"
(the 31 high-order bits): 1884493844 versus 551229402. -/
theorem date_seed_ne_first31_bits :
    date_seed "2024-01-01" ≠ specSeedFirst31 "2024-01-01" := by decide

/-- C4 (amended): for every date string `d`, the numeric seed used by the
daily selection equals the full SHA-256 digest of `d` interpreted as an
unsigned big-endian integer, reduced mod 2^31 — that is, the 31
least-significant bits of the digest, not its first (most-significant)
31 bits. -/
theorem date_seed_eq_digest_mod (d : String) :
    date_seed d = bytesToNatBE (sha256Bytes d) % 2 ^ 31 := by
  unfold date_seed
  rw [intOfHex_bytesHex _ (sha256Bytes_lt_256 d)]

/-- C2 counterexample: the two access modes do not use the identical seed
derivation.  At the concrete date "2024-01-01" the offset-mode seed of
`generate_word_date` (src/draw.py line 403, MD5 mod 2^32 = 730403084)
differs from the batch-mode seed of `get_daily_meaning_wrappers`
(src/main.py line 62, SHA-256 mod 2^31 = 1884493844). -/
theorem generate_word_date_seed_ne_date_seed :
    generate_word_date_seed "2024-01-01" ≠ date_seed "2024-01-01" := by decide

/-- C2 (amended): the offset-mode selection and the batch selection use
different seed derivations — MD5(d) mod 2^32 versus SHA-256(d) mod 2^31 —
so the two modes are not mutually consistent; there is a date string on
which the derived seeds differ.  (The offset mode additionally samples
with Python's global Mersenne-Twister `random.sample` over all rows,
a different selection algorithm from the SQL `SUBSTR` ordering.) -/
theorem exists_date_with_differing_seeds :
    ∃ d : String, generate_word_date_seed d ≠ date_seed d :=
  ⟨"2024-01-01", by decide⟩

/-! ## The entry store and the daily selection (src/main.py lines 36–99)

The persisted schema ("jishi scrape/main.py" lines 195–210):
`words(id INTEGER PRIMARY KEY AUTOINCREMENT, representation_html, created_at)`
and `meaning_wrappers(id INTEGER PRIMARY KEY AUTOINCREMENT, word_id, wrapper_html)`.

A store snapshot is a list of rows in arbitrary (insertion) order.  SQLite
stores rowid tables in rowid (= id) order and scans them in that order, so
the embedded query first sorts each table by id; `ORDER BY` is modelled as a
stable sort over that scan order, which realises id-order tie-breaking for
equal sort keys.  `word_id * seed` stays far below 2^63 for realistic ids
and a 31-bit seed, so SQLite's 64-bit arithmetic never overflows and the
product is modelled as exact `Nat` multiplication. -/

structure WordRow where
  id : Nat
  representation_html : String
deriving DecidableEq, Repr

structure MeaningWrapperRow where
  id : Nat
  word_id : Nat
  wrapper_html : String
deriving DecidableEq, Repr

/-- One row of the result of `get_daily_meaning_wrappers`:
`{meaning_wrapper, representation, word_id}`. -/
structure DailyEntry where
  meaning_wrapper : String
  representation : String
  word_id : Nat
deriving DecidableEq, Repr

/-- Stable sort by a key (insertion sort, as a model of SQLite `ORDER BY`
over the scan order). -/
def sortK {κ : Type} [LinearOrder κ] (key : α → κ) (l : List α) : List α :=
  @List.insertionSort α (fun a b => key a ≤ key b)
    (fun a b => inferInstanceAs (Decidable (key a ≤ key b))) l

theorem sortK_perm {κ : Type} [LinearOrder κ] (key : α → κ) (l : List α) :
    (sortK key l).Perm l :=
  List.perm_insertionSort _ l

theorem sortK_sorted {κ : Type} [LinearOrder κ] (key : α → κ) (l : List α) :
    List.Sorted (fun a b => key a ≤ key b) (sortK key l) := by
  haveI : IsTotal α (fun a b => key a ≤ key b) := ⟨fun a b => le_total (key a) (key b)⟩
  haveI : IsTrans α (fun a b => key a ≤ key b) := ⟨fun _ _ _ h1 h2 => le_trans h1 h2⟩
  exact List.sorted_insertionSort _ l

/-- Sorting by a key that is duplicate-free on the list is
permutation-invariant: any two insertion orders of the same rows sort to
the same list. -/
theorem sortK_eq_of_perm {κ : Type} [LinearOrder κ] (key : α → κ) {l1 l2 : List α}
    (h : l1.Perm l2) (hn : (l1.map key).Nodup) :
    sortK key l1 = sortK key l2 := by
  have p : (sortK key l1).Perm (sortK key l2) :=
    (sortK_perm key l1).trans (h.trans (sortK_perm key l2).symm)
  have hn1 : ((sortK key l1).map key).Nodup :=
    (((sortK_perm key l1).map key).nodup_iff).mpr hn
  have hn2 : ((sortK key l2).map key).Nodup :=
    (((sortK_perm key l2).map key).nodup_iff).mpr ((h.map key).nodup_iff.mp hn)
  have s1 : List.Pairwise (fun a b => key a < key b) (sortK key l1) :=
    ((sortK_sorted key l1).and (List.pairwise_map.mp hn1)).imp
      (fun h => lt_of_le_of_ne h.1 h.2)
  have s2 : List.Pairwise (fun a b => key a < key b) (sortK key l2) :=
    ((sortK_sorted key l2).and (List.pairwise_map.mp hn2)).imp
      (fun h => lt_of_le_of_ne h.1 h.2)
  haveI : IsAntisymm α (fun a b => key a < key b) :=
    ⟨fun _ _ h1 h2 => absurd h1 (lt_asymm h2)⟩
  exact List.eq_of_perm_of_sorted p s1 s2

/-- First-occurrence deduplication with an accumulator of already-seen
values; models `SELECT DISTINCT` over the scan order. -/
def firstDedupAux : List Nat → List Nat → List Nat
  | _, [] => []
  | seen, a :: as =>
    if a ∈ seen then firstDedupAux seen as else a :: firstDedupAux (a :: seen) as

/-- Distinct values of a list in first-occurrence order. -/
def firstDedup (l : List Nat) : List Nat := firstDedupAux [] l

theorem mem_firstDedupAux (a : Nat) (l : List Nat) :
    ∀ seen, a ∈ firstDedupAux seen l ↔ a ∈ l ∧ a ∉ seen := by
  induction l with
  | nil => intro seen; simp [firstDedupAux]
  | cons b bs ih =>
    intro seen
    by_cases hb : b ∈ seen
    · rw [firstDedupAux, if_pos hb, ih]
      simp only [List.mem_cons]
      constructor
      · exact fun ⟨h1, h2⟩ => ⟨Or.inr h1, h2⟩
      · rintro ⟨h1 | h1, h2⟩
        · exact absurd (h1 ▸ hb) h2
        · exact ⟨h1, h2⟩
    · rw [firstDedupAux, if_neg hb]
      simp only [List.mem_cons, ih]
      by_cases hab : a = b
      · subst hab; tauto
      · tauto

theorem nodup_firstDedupAux (l : List Nat) :
    ∀ seen, (firstDedupAux seen l).Nodup := by
  induction l with
  | nil => intro seen; simp [firstDedupAux]
  | cons b bs ih =>
    intro seen
    by_cases hb : b ∈ seen
    · rw [firstDedupAux, if_pos hb]; exact ih seen
    · rw [firstDedupAux, if_neg hb]
      refine List.Nodup.cons ?_ (ih (b :: seen))
      intro hmem
      exact ((mem_firstDedupAux b bs (b :: seen)).mp hmem).2 (List.mem_cons_self _ _)

theorem mem_firstDedup (a : Nat) (l : List Nat) : a ∈ firstDedup l ↔ a ∈ l := by
  rw [firstDedup, mem_firstDedupAux]
  simp

/-- `firstDedup` counts exactly the distinct values of the list. -/
theorem length_firstDedup (l : List Nat) : (firstDedup l).length = l.dedup.length := by
  have h1 : (firstDedup l).Nodup := nodup_firstDedupAux l []
  calc (firstDedup l).length = (firstDedup l).toFinset.card :=
        (List.toFinset_card_of_nodup h1).symm
    _ = l.dedup.toFinset.card := by
        congr 1
        ext a
        simp [List.mem_toFinset, mem_firstDedup, List.mem_dedup]
    _ = l.dedup.length := List.toFinset_card_of_nodup (List.nodup_dedup l)

/-- The per-row sort key `SUBSTR(x * seed, 1, 15)` (src/main.py lines 69
and 78): the first 15 characters of the decimal text of the product. -/
def substrKey (seed x : Nat) : String := (toString (x * seed)).take 15

/-- The `daily_words` CTE (src/main.py lines 66–71): the distinct
`word_id`s of `meaning_wrappers`, ordered by `SUBSTR(word_id * seed, 1, 15)`
over the scan order, first 4 kept. -/
def daily_words_cte (seed : Nat) (ms : List MeaningWrapperRow) : List Nat :=
  (sortK (fun w => substrKey seed w) (firstDedup (ms.map (fun m => m.word_id)))).take 4

/-- The rank-1 wrapper of one word in the `selected_wrappers` CTE
(src/main.py lines 72–88): among the word's wrappers, the first under
`ORDER BY SUBSTR(mw.id * seed, 1, 15)` (`ROW_NUMBER() ... WHERE rn = 1`). -/
def select_wrapper (seed : Nat) (ms : List MeaningWrapperRow) (w : Nat) :
    Option MeaningWrapperRow :=
  (sortK (fun m : MeaningWrapperRow => substrKey seed m.id)
    (ms.filter (fun m => m.word_id == w))).head?

/-- Embedding of `get_daily_meaning_wrappers(date_str)` (src/main.py lines
36–99) against a store snapshot.  Each daily word is joined with `words`
(`JOIN words w ON mw.word_id = w.id`; a word id with no `words` row
produces no output row), its rank-1 wrapper is kept, and the result is
ordered by `word_id`. -/
def get_daily_meaning_wrappers (date_str : String)
    (words : List WordRow) (wrappers : List MeaningWrapperRow) : List DailyEntry :=
  let seed := date_seed date_str
  let ws := sortK (fun r : WordRow => r.id) words
  let ms := sortK (fun r : MeaningWrapperRow => r.id) wrappers
  sortK (fun e : DailyEntry => e.word_id)
    ((daily_words_cte seed ms).filterMap (fun w =>
      match select_wrapper seed ms w, ws.find? (fun r => r.id == w) with
      | some mw, some wr => some ⟨mw.wrapper_html, wr.representation_html, w⟩
      | _, _ => none))

/-- C1: for every date string and every fixed snapshot of the store
contents, the daily selection is a pure function of the date and the rows:
two row lists that are permutations of one another (any two insertion
orders of the same snapshot, ids duplicate-free as the primary keys
guarantee) produce identical result sequences — the same entries in the
same order — with sort-key collisions broken by the stable id order that
the embedded query sorts by first. -/
theorem get_daily_meaning_wrappers_deterministic (d : String)
    (ws1 ws2 : List WordRow) (ms1 ms2 : List MeaningWrapperRow)
    (hws : ws1.Perm ws2) (hms : ms1.Perm ms2)
    (hwn : (ws1.map (fun r => r.id)).Nodup) (hmn : (ms1.map (fun r => r.id)).Nodup) :
    get_daily_meaning_wrappers d ws1 ms1 = get_daily_meaning_wrappers d ws2 ms2 := by
  unfold get_daily_meaning_wrappers
  rw [sortK_eq_of_perm _ hws hwn, sortK_eq_of_perm _ hms hmn]

/-- C1 witness: two different insertion orders of a concrete two-word,
three-gloss store produce identical daily selections for "2024-01-01". -/
theorem get_daily_meaning_wrappers_deterministic_witness :
    ([⟨1, "ra"⟩, ⟨2, "rb"⟩] : List WordRow).Perm [⟨2, "rb"⟩, ⟨1, "ra"⟩] ∧
    ([⟨1, 1, "ga"⟩, ⟨2, 2, "gb"⟩, ⟨3, 1, "gc"⟩] : List MeaningWrapperRow).Perm
      [⟨3, 1, "gc"⟩, ⟨1, 1, "ga"⟩, ⟨2, 2, "gb"⟩] ∧
    (([⟨1, "ra"⟩, ⟨2, "rb"⟩] : List WordRow).map (fun r => r.id)).Nodup ∧
    (([⟨1, 1, "ga"⟩, ⟨2, 2, "gb"⟩, ⟨3, 1, "gc"⟩] : List MeaningWrapperRow).map
      (fun r => r.id)).Nodup ∧
    get_daily_meaning_wrappers "2024-01-01" [⟨1, "ra"⟩, ⟨2, "rb"⟩]
        [⟨1, 1, "ga"⟩, ⟨2, 2, "gb"⟩, ⟨3, 1, "gc"⟩]
      = get_daily_meaning_wrappers "2024-01-01" [⟨2, "rb"⟩, ⟨1, "ra"⟩]
          [⟨3, 1, "gc"⟩, ⟨1, 1, "ga"⟩, ⟨2, 2, "gb"⟩] :=
  ⟨by decide, by decide, by decide, by decide,
    get_daily_meaning_wrappers_deterministic "2024-01-01" _ _ _ _
      (by decide) (by decide) (by decide) (by decide)⟩

theorem length_filterMap_of_isSome (f : α → Option β) :
    ∀ l : List α, (∀ a ∈ l, (f a).isSome) → (l.filterMap f).length = l.length := by
  intro l
  induction l with
  | nil => intro _; rfl
  | cons a as ih =>
    intro h
    obtain ⟨b, hb⟩ := Option.isSome_iff_exists.mp (h a (List.mem_cons_self _ _))
    rw [List.filterMap_cons, hb, List.length_cons, List.length_cons,
      ih (fun x hx => h x (List.mem_cons_of_mem _ hx))]

theorem mem_of_mem_daily_words_cte {seed : Nat} {ms : List MeaningWrapperRow} {w : Nat}
    (h : w ∈ daily_words_cte seed ms) : w ∈ ms.map (fun m => m.word_id) := by
  have h1 : w ∈ sortK (fun w => substrKey seed w) (firstDedup (ms.map (fun m => m.word_id))) :=
    List.take_subset _ _ h
  have h2 : w ∈ firstDedup (ms.map (fun m => m.word_id)) :=
    (sortK_perm _ _).mem_iff.mp h1
  exact (mem_firstDedup _ _).mp h2

theorem daily_words_cte_length (seed : Nat) (ms : List MeaningWrapperRow) :
    (daily_words_cte seed ms).length = min 4 ((ms.map (fun m => m.word_id)).dedup).length := by
  unfold daily_words_cte
  rw [List.length_take, (sortK_perm _ _).length_eq, length_firstDedup]

theorem select_wrapper_isSome (seed : Nat) {ms : List MeaningWrapperRow} {w : Nat}
    (h : w ∈ ms.map (fun m => m.word_id)) : (select_wrapper seed ms w).isSome := by
  obtain ⟨m, hm, hw⟩ := List.mem_map.mp h
  have hmem : m ∈ ms.filter (fun m => m.word_id == w) :=
    List.mem_filter.mpr ⟨hm, by simp [hw]⟩
  have hne : sortK (fun m : MeaningWrapperRow => substrKey seed m.id)
      (ms.filter (fun m => m.word_id == w)) ≠ [] := by
    intro hnil
    have := (sortK_perm (fun m : MeaningWrapperRow => substrKey seed m.id)
      (ms.filter (fun m => m.word_id == w))).symm.mem_iff.mp hmem
    rw [hnil] at this
    exact List.not_mem_nil _ this
  exact List.head?_isSome.mpr hne

/-- C5: for every date string and store snapshot whose wrappers all
reference an existing word (the referential integrity the scraper
establishes), the daily selection returns exactly
`min 4 (number of distinct qualifying word ids)` entries — in particular,
with fewer than 4 distinct word ids it returns all of them, without error
and without padding. -/
theorem get_daily_meaning_wrappers_length (d : String)
    (words : List WordRow) (wrappers : List MeaningWrapperRow)
    (href : ∀ m ∈ wrappers, m.word_id ∈ words.map (fun r => r.id)) :
    (get_daily_meaning_wrappers d words wrappers).length
      = min 4 ((wrappers.map (fun m => m.word_id)).dedup).length := by
  unfold get_daily_meaning_wrappers
  rw [(sortK_perm _ _).length_eq]
  have hsome : ∀ w ∈ daily_words_cte (date_seed d)
      (sortK (fun r : MeaningWrapperRow => r.id) wrappers),
      ((fun w =>
        match select_wrapper (date_seed d) (sortK (fun r : MeaningWrapperRow => r.id) wrappers) w,
              (sortK (fun r : WordRow => r.id) words).find? (fun r : WordRow => r.id == w) with
        | some mw, some wr => some (⟨mw.wrapper_html, wr.representation_html, w⟩ : DailyEntry)
        | _, _ => none) w).isSome := by
    intro w hw
    have hmem := mem_of_mem_daily_words_cte hw
    obtain ⟨mw, hmw⟩ := Option.isSome_iff_exists.mp (select_wrapper_isSome (date_seed d) hmem)
    obtain ⟨m, hm, hwid⟩ := List.mem_map.mp hmem
    have hm' : m ∈ wrappers := (sortK_perm _ _).mem_iff.mp hm
    obtain ⟨r, hr, hrid⟩ := List.mem_map.mp (hwid ▸ href m hm')
    have hr' : r ∈ sortK (fun r : WordRow => r.id) words := (sortK_perm _ _).mem_iff.mpr hr
    have hfind : ((sortK (fun r : WordRow => r.id) words).find?
        (fun r : WordRow => r.id == w)).isSome :=
      List.find?_isSome.mpr ⟨r, hr', by simp [hrid]⟩
    obtain ⟨wr, hwr⟩ := Option.isSome_iff_exists.mp hfind
    simp only [hmw, hwr, Option.isSome_some]
  rw [length_filterMap_of_isSome _ _ hsome, daily_words_cte_length]
  congr 1
  exact ((sortK_perm (fun r : MeaningWrapperRow => r.id) wrappers).map
    (fun m => m.word_id)).dedup.length_eq

/-- C5 witness: a concrete store with only 2 distinct word ids yields
exactly 2 entries for "2024-01-01". -/
theorem get_daily_meaning_wrappers_length_witness :
    (∀ m ∈ ([⟨1, 1, "ga"⟩, ⟨2, 2, "gb"⟩, ⟨3, 1, "gc"⟩] : List MeaningWrapperRow),
      m.word_id ∈ ([⟨1, "ra"⟩, ⟨2, "rb"⟩] : List WordRow).map (fun r => r.id)) ∧
    (get_daily_meaning_wrappers "2024-01-01" [⟨1, "ra"⟩, ⟨2, "rb"⟩]
        [⟨1, 1, "ga"⟩, ⟨2, 2, "gb"⟩, ⟨3, 1, "gc"⟩]).length
      = min 4 ((([⟨1, 1, "ga"⟩, ⟨2, 2, "gb"⟩, ⟨3, 1, "gc"⟩] : List MeaningWrapperRow).map
          (fun m => m.word_id)).dedup).length :=
  ⟨by decide,
    get_daily_meaning_wrappers_length "2024-01-01" _ _ (by decide)⟩

/-! ## Bulk persistence (`store_extracted_results`, "jishi scrape/main.py" lines 176–237)

The connection state is modelled explicitly: `store_extracted_results`
opens a transaction (`BEGIN TRANSACTION`), inserts every entry's word row
followed by its gloss rows — the gloss `word_id` is the `lastrowid` of the
word just inserted — and commits; any exception triggers `conn.rollback()`
and is re-raised unmodified (`except: conn.rollback(); raise`).

The engine-level failures a Python `INSERT` can hit (I/O errors,
constraint errors) are abstracted as an oracle `fail` that maps each
statement index to `none` (success) or `some e` (the raised error).
Note that the connection never executes `PRAGMA foreign_keys = ON`, so
SQLite's declared `FOREIGN KEY(word_id) REFERENCES words(id)` clause is
NOT enforced at insert time (SQLite keeps foreign-key enforcement off by
default); the insert primitives below therefore never fail by themselves. -/

/-- One scraped entry as handed to `store_extracted_results`:
`{'representation': html, 'meaning_wrappers': [html, ...]}`. -/
structure ScrapedEntry where
  representation : String
  meaning_wrappers : List String
deriving DecidableEq, Repr

/-- A store snapshot together with the AUTOINCREMENT counters. -/
structure DB where
  words : List WordRow
  meaning_wrappers : List MeaningWrapperRow
  next_word_id : Nat
  next_wrapper_id : Nat
deriving DecidableEq, Repr

/-- `INSERT INTO words (representation_html) VALUES (?)`; returns the new
database and the `lastrowid`. -/
def insertWordRow (db : DB) (html : String) : DB × Nat :=
  (⟨db.words ++ [⟨db.next_word_id, html⟩], db.meaning_wrappers,
    db.next_word_id + 1, db.next_wrapper_id⟩, db.next_word_id)

/-- `INSERT INTO meaning_wrappers (word_id, wrapper_html) VALUES (?, ?)`.
Succeeds for every `word_id`, existing or not: the connection never
enables foreign-key enforcement, so the declared constraint is inert. -/
def insertWrapperRow (db : DB) (word_id : Nat) (html : String) : DB × Nat :=
  (⟨db.words, db.meaning_wrappers ++ [⟨db.next_wrapper_id, word_id, html⟩],
    db.next_word_id, db.next_wrapper_id + 1⟩, db.next_wrapper_id)

/-- The inner loop `for wrapper in entry['meaning_wrappers']`: insert each
gloss for word `wid`, numbering statements from `i`; an oracle failure at a
statement raises.  Returns the new pending state and the next statement
index. -/
def runWrappers (fail : Nat → Option String) (wid : Nat) :
    Nat → DB → List String → Except String (DB × Nat)
  | i, db, [] => .ok (db, i)
  | i, db, h :: rest =>
    match fail i with
    | some e => .error e
    | none => runWrappers fail wid (i + 1) (insertWrapperRow db wid h).1 rest

/-- The outer loop `for entry in all_entries`: insert the word row, capture
`word_id = c.lastrowid`, insert its glosses. -/
def runEntries (fail : Nat → Option String) :
    Nat → DB → List ScrapedEntry → Except String DB
  | _, db, [] => .ok db
  | i, db, e :: rest =>
    match fail i with
    | some err => .error err
    | none =>
      let wr := insertWordRow db e.representation
      match runWrappers fail wr.2 (i + 1) wr.1 e.meaning_wrappers with
      | .error err => .error err
      | .ok (db2, i2) => runEntries fail i2 db2 rest

/-- Embedding of `store_extracted_results(results)` ("jishi scrape/main.py"
lines 176–237): flatten the page results, run every insert inside one
transaction, commit on success; on any raised error roll back (committed
state unchanged) and re-raise the error unmodified. -/
def store_extracted_results (fail : Nat → Option String)
    (results : List (List ScrapedEntry)) (db : DB) : DB × Except String Unit :=
  let all_entries := results.flatMap (fun page => page)
  match runEntries fail 0 db all_entries with
  | .ok db2 => (db2, .ok ())
  | .error e => (db, .error e)

/-- The failure-free meaning of inserting one entry: its word row followed
by all its gloss rows. -/
def applyEntry (db : DB) (e : ScrapedEntry) : DB :=
  let wr := insertWordRow db e.representation
  e.meaning_wrappers.foldl (fun d h => (insertWrapperRow d wr.2 h).1) wr.1

/-- The failure-free meaning of the whole batch: every word and every gloss
of every entry inserted, in order. -/
def applyBatch (results : List (List ScrapedEntry)) (db : DB) : DB :=
  (results.flatMap (fun page => page)).foldl applyEntry db

theorem runWrappers_spec (fail : Nat → Option String) (wid : Nat) :
    ∀ (hs : List String) (i : Nat) (db : DB),
      (∃ i2, runWrappers fail wid i db hs
          = .ok (hs.foldl (fun d h => (insertWrapperRow d wid h).1) db, i2)) ∨
      (∃ e, runWrappers fail wid i db hs = .error e ∧ ∃ j, fail j = some e) := by
  intro hs
  induction hs with
  | nil => intro i db; exact Or.inl ⟨i, rfl⟩
  | cons h rest ih =>
    intro i db
    cases hf : fail i with
    | some e => exact Or.inr ⟨e, by simp [runWrappers, hf], i, hf⟩
    | none =>
      rcases ih (i + 1) (insertWrapperRow db wid h).1 with ⟨i2, hok⟩ | ⟨e, herr, hj⟩
      · exact Or.inl ⟨i2, by simp [runWrappers, hf, hok]⟩
      · exact Or.inr ⟨e, by simp [runWrappers, hf, herr], hj⟩

theorem runEntries_spec (fail : Nat → Option String) :
    ∀ (es : List ScrapedEntry) (i : Nat) (db : DB),
      runEntries fail i db es = .ok (es.foldl applyEntry db) ∨
      (∃ e, runEntries fail i db es = .error e ∧ ∃ j, fail j = some e) := by
  intro es
  induction es with
  | nil => intro i db; exact Or.inl rfl
  | cons e rest ih =>
    intro i db
    cases hf : fail i with
    | some err => exact Or.inr ⟨err, by simp [runEntries, hf], i, hf⟩
    | none =>
      rcases runWrappers_spec fail (insertWordRow db e.representation).2
          e.meaning_wrappers (i + 1) (insertWordRow db e.representation).1 with
        ⟨i2, hok⟩ | ⟨err, herr, hj⟩
      · rcases ih i2 (e.meaning_wrappers.foldl
            (fun d h => (insertWrapperRow d (insertWordRow db e.representation).2 h).1)
            (insertWordRow db e.representation).1) with hok2 | ⟨err, herr2, hj2⟩
        · refine Or.inl ?_
          simp only [runEntries, hf, hok, hok2, List.foldl_cons]
          rfl
        · exact Or.inr ⟨err, by simp only [runEntries, hf, hok, herr2], hj2⟩
      · exact Or.inr ⟨err, by simp only [runEntries, hf, herr], hj⟩

theorem applyEntry_counts (db : DB) (e : ScrapedEntry) :
    (applyEntry db e).words.length = db.words.length + 1 ∧
    (applyEntry db e).meaning_wrappers.length
      = db.meaning_wrappers.length + e.meaning_wrappers.length := by
  unfold applyEntry
  constructor
  · have h : ∀ (hs : List String) (d : DB) (wid : Nat),
        (hs.foldl (fun d h => (insertWrapperRow d wid h).1) d).words = d.words := by
      intro hs
      induction hs with
      | nil => intro d wid; rfl
      | cons h rest ih => intro d wid; rw [List.foldl_cons, ih]; rfl
    rw [h]
    simp [insertWordRow]
  · have h : ∀ (hs : List String) (d : DB) (wid : Nat),
        (hs.foldl (fun d h => (insertWrapperRow d wid h).1) d).meaning_wrappers.length
          = d.meaning_wrappers.length + hs.length := by
      intro hs
      induction hs with
      | nil => intro d wid; rfl
      | cons h rest ih =>
        intro d wid
        rw [List.foldl_cons, ih]
        simp [insertWrapperRow]
        omega
    rw [h]
    rfl

theorem applyBatch_counts (results : List (List ScrapedEntry)) (db : DB) :
    (applyBatch results db).words.length
        = db.words.length + (results.flatMap (fun page => page)).length ∧
    (applyBatch results db).meaning_wrappers.length
        = db.meaning_wrappers.length
          + ((results.flatMap (fun page => page)).map
              (fun e => e.meaning_wrappers.length)).sum := by
  unfold applyBatch
  generalize results.flatMap (fun page => page) = es
  induction es generalizing db with
  | nil => simp
  | cons e rest ih =>
    rcases ih (applyEntry db e) with ⟨ihw, ihm⟩
    rcases applyEntry_counts db e with ⟨hw, hm⟩
    refine ⟨?_, ?_⟩
    · rw [List.foldl_cons, ihw, hw]
      simp
      omega
    · rw [List.foldl_cons, ihm, hm]
      simp
      omega

/-- C6: `store_extracted_results` is atomic.  For every batch, every
failure oracle and every starting store, either the call commits and the
resulting store is exactly the failure-free insertion of every word and
every gloss of the batch (the word and gloss counts grow by the full batch
size), or some insert fails, the store is returned unchanged, and the
raised error is propagated to the caller unmodified. -/
theorem store_extracted_results_atomic (fail : Nat → Option String)
    (results : List (List ScrapedEntry)) (db : DB) :
    (store_extracted_results fail results db = (applyBatch results db, .ok ()) ∧
      (applyBatch results db).words.length
        = db.words.length + (results.flatMap (fun page => page)).length ∧
      (applyBatch results db).meaning_wrappers.length
        = db.meaning_wrappers.length
          + ((results.flatMap (fun page => page)).map
              (fun e => e.meaning_wrappers.length)).sum) ∨
    (∃ e, store_extracted_results fail results db = (db, .error e) ∧
      ∃ j, fail j = some e) := by
  rcases runEntries_spec fail (results.flatMap (fun page => page)) 0 db with hok | ⟨e, herr, hj⟩
  · exact Or.inl ⟨by simp [store_extracted_results, hok, applyBatch],
      applyBatch_counts results db⟩
  · exact Or.inr ⟨e, by simp [store_extracted_results, herr], hj⟩

/-- C7: evaluation of the gloss insert at the failing input of the claim.
Inserting a gloss that references word id 5 into a store whose `words`
relation is empty succeeds and persists the dangling row — no
`ForeignKeyViolation` is raised, because the connection opened by
`store_extracted_results` never executes `PRAGMA foreign_keys = ON` and
SQLite leaves the declared foreign-key constraint unenforced by default.
The claim (and the schema's `FOREIGN KEY ... ON DELETE CASCADE` clause)
describe the intended behaviour; the code omits the pragma. -/
theorem insertWrapperRow_dangling_succeeds :
    (insertWrapperRow ⟨[], [], 1, 1⟩ 5 "gloss").1
      = ⟨[], [⟨1, 5, "gloss"⟩], 1, 2⟩ := rfl

/-! ## HTML markup model

BeautifulSoup values are modelled as an explicit tree: an element with a
tag name, a class list and children, or a text node.  `find_all(tag,
class_=c)` is a pre-order search of strict descendants; `find` is its
first result; `.text` concatenates descendant strings; `get_text(strip=
True)` concatenates the individually stripped strings; `.string` follows
single children down to a lone text node.  Python's `str.strip()` is
modelled by `pyStrip` below. -/

/-- Python's `str.strip()`: drop leading and trailing whitespace
characters.  (Defined over the character list so that the kernel can
evaluate it on concrete strings.) -/
def pyStrip (s : String) : String :=
  String.mk (((s.data.dropWhile Char.isWhitespace).reverse.dropWhile
    Char.isWhitespace).reverse)

inductive Node where
  | elem (tag : String) (classes : List String) (children : List Node)
  | text (s : String)

/-- Does a node match `find`/`find_all` arguments `(tag, class_=cls)`?
A class filter matches when the class appears in the node's class list;
text nodes never match. -/
def matchTag (t : String) (cls : Option String) : Node → Bool
  | .elem tag classes _ =>
    tag == t && (match cls with | none => true | some c => classes.contains c)
  | .text _ => false

/-- All matching nodes among a node list and their descendants, in
document (pre-) order. -/
def descendants (p : Node → Bool) : List Node → List Node
  | [] => []
  | .text _ :: rest => descendants p rest
  | .elem t c ch :: rest =>
    (if p (.elem t c ch) then [Node.elem t c ch] else [])
      ++ descendants p ch ++ descendants p rest

/-- `tag.find_all(...)`: matching strict descendants in document order. -/
def Node.find_all (n : Node) (p : Node → Bool) : List Node :=
  match n with
  | .text _ => []
  | .elem _ _ ch => descendants p ch

/-- `tag.find(...)`: the first matching strict descendant, if any. -/
def Node.find (n : Node) (p : Node → Bool) : Option Node := (n.find_all p).head?

/-- The text fragments below a node list, in document order. -/
def textsList : List Node → List String
  | [] => []
  | .text s :: rest => s :: textsList rest
  | .elem _ _ ch :: rest => textsList ch ++ textsList rest

/-- `tag.text`: concatenation of all descendant text fragments. -/
def Node.textAll (n : Node) : String :=
  match n with
  | .text s => s
  | .elem _ _ ch => String.join (textsList ch)

/-- `tag.get_text(strip=True)`: concatenation of the individually stripped
text fragments. -/
def Node.getTextStrip (n : Node) : String :=
  match n with
  | .text s => pyStrip s
  | .elem _ _ ch => String.join ((textsList ch).map pyStrip)

/-- `tag.string`: follow lone children down to a single text node. -/
def Node.nodeString : Node → Option String
  | .text s => some s
  | .elem _ _ [c] => Node.nodeString c
  | .elem _ _ _ => none

/-- The direct children of a node (`.children` / `.contents`). -/
def Node.childNodes : Node → List Node
  | .text _ => []
  | .elem _ _ ch => ch

/-- `tag.decompose()` applied to every matching node of a node list:
remove each matching element together with its whole subtree. -/
def removeNodes (p : Node → Bool) : List Node → List Node
  | [] => []
  | .text s :: rest => .text s :: removeNodes p rest
  | .elem t c ch :: rest =>
    if p (.elem t c ch) then removeNodes p rest
    else .elem t c (removeNodes p ch) :: removeNodes p rest

/-! ## `extract_meaning` (src/draw.py lines 47–75) -/

/-- The decomposition of one example `<li>`: its optional `span.furigana`
text and optional `span.unlinked` text (src/draw.py lines 57–69). -/
def extract_li (li : Node) : Option String × Option String :=
  ((li.find (matchTag "span" (some "furigana"))).map Node.getTextStrip,
   (li.find (matchTag "span" (some "unlinked"))).map Node.getTextStrip)

/-- Embedding of `extract_meaning(html)` (src/draw.py lines 47–75):
the `span.meaning-meaning` text (empty if absent), the decomposed `<li>`
items of the first `<ul>` (empty list if absent), and the `span.english`
text (empty if absent).  The function is total: no input makes it fail. -/
def extract_meaning (html : Node) : String × List (Option String × Option String) × String :=
  let meaning := match html.find (matchTag "span" (some "meaning-meaning")) with
                 | some sp => sp.getTextStrip
                 | none => ""
  let lis := match html.find (matchTag "ul" none) with
             | some ul => (ul.find_all (matchTag "li" none)).map extract_li
             | none => []
  let english := match html.find (matchTag "span" (some "english")) with
                 | some sp => sp.getTextStrip
                 | none => ""
  (meaning, lis, english)

/-- C9: `extract_meaning` never fails — it is a total function returning a
(meaningText, exampleItems, englishTranslation) triple — and each expected
element that is absent from the markup yields an empty field rather than
an error: no `span.meaning-meaning` gives an empty meaning, no `<ul>`
gives an empty example list, no `span.english` gives an empty
translation. -/
theorem extract_meaning_absent_elements_empty (html : Node) :
    (html.find (matchTag "span" (some "meaning-meaning")) = none →
      (extract_meaning html).1 = "") ∧
    (html.find (matchTag "ul" none) = none →
      (extract_meaning html).2.1 = []) ∧
    (html.find (matchTag "span" (some "english")) = none →
      (extract_meaning html).2.2 = "") := by
  refine ⟨fun h => ?_, fun h => ?_, fun h => ?_⟩ <;>
    simp [extract_meaning, h]

/-- C9 witness: on a concrete markup fragment with none of the expected
elements, all three fields come back empty. -/
theorem extract_meaning_absent_elements_empty_witness :
    (Node.elem "div" [] [Node.text "nothing"]).find
        (matchTag "span" (some "meaning-meaning")) = none ∧
    (Node.elem "div" [] [Node.text "nothing"]).find (matchTag "ul" none) = none ∧
    (Node.elem "div" [] [Node.text "nothing"]).find
        (matchTag "span" (some "english")) = none ∧
    extract_meaning (Node.elem "div" [] [Node.text "nothing"]) = ("", [], "") := by
  have h1 : (Node.elem "div" [] [Node.text "nothing"]).find
      (matchTag "span" (some "meaning-meaning")) = none := by
    simp [Node.find, Node.find_all, descendants]
  have h2 : (Node.elem "div" [] [Node.text "nothing"]).find (matchTag "ul" none) = none := by
    simp [Node.find, Node.find_all, descendants]
  have h3 : (Node.elem "div" [] [Node.text "nothing"]).find
      (matchTag "span" (some "english")) = none := by
    simp [Node.find, Node.find_all, descendants]
  refine ⟨h1, h2, h3, ?_⟩
  have h := extract_meaning_absent_elements_empty (Node.elem "div" [] [Node.text "nothing"])
  have e1 := h.1 h1
  have e2 := h.2.1 h2
  have e3 := h.2.2 h3
  cases hval : extract_meaning (Node.elem "div" [] [Node.text "nothing"]) with
  | mk m rest =>
    cases rest with
    | mk l e =>
      rw [hval] at e1 e2 e3
      simp at e1 e2 e3
      rw [e1, e2, e3]

/-! ## `extract_representation` (src/draw.py lines 113–164) -/

/-- The failures `extract_representation` can raise: the two `ValueError`s
of the furigana-region parse, the `AssertionError` on a missing
`span.text`, and the final `ValueError("Mismatch between furigana and text
lengths")` — the spec's `ReadingCountMismatch`. -/
inductive ReprError where
  | malformedRuby
  | unexpectedFuriganaChild
  | missingTextSpan
  | lengthMismatch
deriving DecidableEq, Repr

/-- `TextBlock` (src/draw.py lines 86–101): one display unit, either a
marked span (one collective reading) or plain characters. -/
structure TextBlock where
  char : String
  is_span : Bool
deriving DecidableEq, Repr

/-- `TextBlock.__len__`: 1 for a span unit, the character count otherwise. -/
def TextBlock.len (tb : TextBlock) : Nat := if tb.is_span then 1 else tb.char.length

/-- `RepresentationBlock` (src/draw.py lines 77–84). -/
structure RepresentationBlock where
  kanji : String
  furigana : String
  furigana_span : Option String
deriving DecidableEq, Repr

/-- The furigana-region parse (src/draw.py lines 126–141): over the direct
children of `span.furigana`, a `span` child contributes
`(child.text.strip(), None)`; a `ruby` child contributes
`(rt.text.strip(), rb.text.strip() or None)` and raises if it has no
`<rt>`; any other child — including a bare text node — raises
`ValueError("Unexpected element in furigana span")`. -/
def parseFurigana : List Node → Except ReprError (List (String × Option String))
  | [] => .ok []
  | Node.text _ :: _ => .error .unexpectedFuriganaChild
  | Node.elem t c ch :: rest =>
    if t == "span" then
      match parseFurigana rest with
      | .error e => .error e
      | .ok tail => .ok ((pyStrip (Node.elem t c ch).textAll, none) :: tail)
    else if t == "ruby" then
      match (Node.elem t c ch).find (matchTag "rt" none) with
      | none => .error .malformedRuby
      | some rt =>
        match parseFurigana rest with
        | .error e => .error e
        | .ok tail =>
          .ok ((pyStrip rt.textAll,
            ((Node.elem t c ch).find (matchTag "rb" none)).map
              (fun rb => pyStrip rb.textAll)) :: tail)
    else .error .unexpectedFuriganaChild

/-- The display-region parse (src/draw.py lines 144–151): over the direct
contents of `span.text`, a string that is nonempty after stripping becomes
a plain block, a `span` child becomes a span block, everything else is
skipped. -/
def parseTextBlocks : List Node → List TextBlock
  | [] => []
  | Node.text s :: rest =>
    if pyStrip s == "" then parseTextBlocks rest
    else ⟨pyStrip s, false⟩ :: parseTextBlocks rest
  | Node.elem t c ch :: rest =>
    if t == "span" then ⟨pyStrip (Node.elem t c ch).textAll, true⟩ :: parseTextBlocks rest
    else parseTextBlocks rest

/-- The `combined_text` expansion (src/draw.py lines 156–161): span units
stay one collapsed unit, plain units expand into their single characters
in order. -/
def expandBlocks : List TextBlock → List String
  | [] => []
  | tb :: rest =>
    (if tb.is_span then [tb.char] else tb.char.data.map (fun ch => String.mk [ch]))
      ++ expandBlocks rest

/-- Python's `zip` on three lists (truncates to the shortest). -/
def zip3 : List α → List β → List γ → List (α × β × γ)
  | a :: as, b :: bs, c :: cs => (a, b, c) :: zip3 as bs cs
  | _, _, _ => []

/-- Embedding of `extract_representation(html)` (src/draw.py lines
113–164): no `div.concept_light-representation` container yields `[]`;
otherwise the furigana and display regions are parsed and reconciled —
equal lengths zip pairwise, a reading count equal to the summed display
lengths zips against the expanded display units, anything else raises the
length-mismatch `ValueError`. -/
def extract_representation (html : Node) : Except ReprError (List RepresentationBlock) :=
  match html.find (matchTag "div" (some "concept_light-representation")) with
  | none => .ok []
  | some cdiv =>
    match (match cdiv.find (matchTag "span" (some "furigana")) with
           | some fdiv => parseFurigana fdiv.childNodes
           | none => .ok []) with
    | .error e => .error e
    | .ok fpairs =>
      match cdiv.find (matchTag "span" (some "text")) with
      | none => .error .missingTextSpan
      | some tspan =>
        let text := parseTextBlocks tspan.childNodes
        let furigana := fpairs.map (fun p => p.1)
        let fspans := fpairs.map (fun p => p.2)
        if furigana.length == text.length then
          .ok ((zip3 text furigana fspans).map
            (fun x => ⟨x.1.char, x.2.1, x.2.2⟩))
        else if furigana.length == (text.map TextBlock.len).sum then
          .ok ((zip3 (expandBlocks text) furigana fspans).map
            (fun x => ⟨x.1, x.2.1, x.2.2⟩))
        else .error .lengthMismatch

theorem zip3_blocks_collapse (as : List TextBlock) :
    ∀ (bs : List String) (cs : List (Option String)),
      as.length = bs.length → bs.length = cs.length →
      (((zip3 as bs cs).map
          (fun x => RepresentationBlock.mk x.1.char x.2.1 x.2.2)).map
            (fun b => b.kanji)
          = as.map (fun u => u.char)) ∧
      (((zip3 as bs cs).map
          (fun x => RepresentationBlock.mk x.1.char x.2.1 x.2.2)).map
            (fun b => b.furigana)
          = bs) := by
  induction as with
  | nil =>
    intro bs cs h1 _
    have : bs = [] := List.length_eq_zero.mp h1.symm
    subst this
    exact ⟨rfl, rfl⟩
  | cons a as ih =>
    intro bs cs h1 h2
    cases bs with
    | nil => simp at h1
    | cons b bs =>
      cases cs with
      | nil => simp at h2
      | cons c cs =>
        have := ih bs cs (by simpa using h1) (by simpa using h2)
        simp only [zip3, List.map_cons]
        exact ⟨by rw [this.1], by rw [this.2]⟩

theorem zip3_blocks_expand (as : List String) :
    ∀ (bs : List String) (cs : List (Option String)),
      as.length = bs.length → bs.length = cs.length →
      (((zip3 as bs cs).map
          (fun x => RepresentationBlock.mk x.1 x.2.1 x.2.2)).map (fun b => b.kanji) = as) ∧
      (((zip3 as bs cs).map
          (fun x => RepresentationBlock.mk x.1 x.2.1 x.2.2)).map (fun b => b.furigana) = bs) := by
  induction as with
  | nil =>
    intro bs cs h1 _
    have : bs = [] := List.length_eq_zero.mp h1.symm
    subst this
    exact ⟨rfl, rfl⟩
  | cons a as ih =>
    intro bs cs h1 h2
    cases bs with
    | nil => simp at h1
    | cons b bs =>
      cases cs with
      | nil => simp at h2
      | cons c cs =>
        have := ih bs cs (by simpa using h1) (by simpa using h2)
        simp only [zip3, List.map_cons]
        exact ⟨by rw [this.1], by rw [this.2]⟩

/-- Expanding display units yields one single-character unit per plain
character and one unit per span: the expansion length is exactly the
summed display-unit length. -/
theorem expandBlocks_length (units : List TextBlock) :
    (expandBlocks units).length = (units.map TextBlock.len).sum := by
  induction units with
  | nil => rfl
  | cons tb rest ih =>
    rw [expandBlocks, List.length_append, ih, List.map_cons, List.sum_cons]
    congr 1
    cases h : tb.is_span with
    | true => rw [TextBlock.len, h]; rfl
    | false =>
      rw [TextBlock.len, h]
      show (tb.char.data.map (fun ch => String.mk [ch])).length = tb.char.length
      rw [List.length_map]
      rfl

/-- C3: the reconciliation of `extract_representation`.  For markup whose
container parses to readings `fpairs` and display units `units`: equal
counts zip pairwise by position — each display unit keeps its whole text
as the kanji of exactly one block, no unit is collapsed or expanded, and
the readings align in order; a reading count equal to the summed
display-unit lengths (spans count 1, plain units their character count)
expands plain units into single characters, keeps spans collapsed, and
zips by position; any other count fails with the length-mismatch error
(the spec's `ReadingCountMismatch`) and produces no partial result. -/
theorem extract_representation_reconciliation
    (html cdiv tspan : Node) (fpairs : List (String × Option String))
    (units : List TextBlock)
    (hfind : html.find (matchTag "div" (some "concept_light-representation")) = some cdiv)
    (hfuri : (match cdiv.find (matchTag "span" (some "furigana")) with
              | some fdiv => parseFurigana fdiv.childNodes
              | none => Except.ok []) = Except.ok fpairs)
    (htext : cdiv.find (matchTag "span" (some "text")) = some tspan)
    (hunits : parseTextBlocks tspan.childNodes = units) :
    (fpairs.length = units.length →
      ∃ blocks, extract_representation html = .ok blocks ∧
        blocks.map (fun b => b.kanji) = units.map (fun u => u.char) ∧
        blocks.map (fun b => b.furigana) = fpairs.map (fun p => p.1)) ∧
    (fpairs.length ≠ units.length →
      fpairs.length = (units.map TextBlock.len).sum →
      ∃ blocks, extract_representation html = .ok blocks ∧
        blocks.map (fun b => b.kanji) = expandBlocks units ∧
        (expandBlocks units).length = (units.map TextBlock.len).sum ∧
        blocks.map (fun b => b.furigana) = fpairs.map (fun p => p.1)) ∧
    (fpairs.length ≠ units.length →
      fpairs.length ≠ (units.map TextBlock.len).sum →
      extract_representation html = .error .lengthMismatch) := by
  have hbase : extract_representation html =
      (if (fpairs.map (fun p => p.1)).length == units.length then
        Except.ok ((zip3 units (fpairs.map (fun p => p.1)) (fpairs.map (fun p => p.2))).map
          (fun x => RepresentationBlock.mk x.1.char x.2.1 x.2.2))
      else if (fpairs.map (fun p => p.1)).length == (units.map TextBlock.len).sum then
        Except.ok ((zip3 (expandBlocks units) (fpairs.map (fun p => p.1))
            (fpairs.map (fun p => p.2))).map
          (fun x => RepresentationBlock.mk x.1 x.2.1 x.2.2))
      else Except.error ReprError.lengthMismatch) := by
    simp only [extract_representation, hfind, hfuri, htext, hunits]
  refine ⟨fun hlen => ?_, fun hne hsum => ?_, fun hne hnsum => ?_⟩
  · have hz := zip3_blocks_collapse units (fpairs.map (fun p => p.1))
      (fpairs.map (fun p => p.2)) (by simp [hlen]) (by simp)
    exact ⟨(zip3 units (fpairs.map (fun p => p.1)) (fpairs.map (fun p => p.2))).map
        (fun x => RepresentationBlock.mk x.1.char x.2.1 x.2.2),
      by rw [hbase, if_pos (by simp [hlen])], hz.1, hz.2⟩
  · have hlen2 : (expandBlocks units).length = (fpairs.map (fun p => p.1)).length := by
      simp [expandBlocks_length, hsum]
    have hz := zip3_blocks_expand (expandBlocks units) (fpairs.map (fun p => p.1))
      (fpairs.map (fun p => p.2)) hlen2 (by simp)
    exact ⟨(zip3 (expandBlocks units) (fpairs.map (fun p => p.1))
        (fpairs.map (fun p => p.2))).map
        (fun x => RepresentationBlock.mk x.1 x.2.1 x.2.2),
      by rw [hbase, if_neg (by simp [hne]), if_pos (by simp [hsum])],
      hz.1, expandBlocks_length units, hz.2⟩
  · rw [hbase, if_neg (by simp [hne]), if_neg (by simp [hnsum])]

/-- C3 witness: a concrete markup fragment whose furigana region holds the
two readings よ, む and whose display region is the single plain unit 読む
(summed length 2) goes through the expansion branch and yields the two
blocks (読, よ) and (む, む). -/
theorem extract_representation_reconciliation_witness :
    ((Node.elem "div" []
        [Node.elem "div" ["concept_light-representation"]
          [Node.elem "span" ["furigana"]
            [Node.elem "span" [] [Node.text "よ"], Node.elem "span" [] [Node.text "む"]],
           Node.elem "span" ["text"] [Node.text "読む"]]]).find
      (matchTag "div" (some "concept_light-representation"))
      = some (Node.elem "div" ["concept_light-representation"]
          [Node.elem "span" ["furigana"]
            [Node.elem "span" [] [Node.text "よ"], Node.elem "span" [] [Node.text "む"]],
           Node.elem "span" ["text"] [Node.text "読む"]])) ∧
    (∃ blocks, extract_representation (Node.elem "div" []
        [Node.elem "div" ["concept_light-representation"]
          [Node.elem "span" ["furigana"]
            [Node.elem "span" [] [Node.text "よ"], Node.elem "span" [] [Node.text "む"]],
           Node.elem "span" ["text"] [Node.text "読む"]]]) = .ok blocks ∧
      blocks.map (fun b => b.kanji)
        = expandBlocks [⟨"読む", false⟩] ∧
      (expandBlocks [⟨"読む", false⟩]).length
        = (([⟨"読む", false⟩] : List TextBlock).map TextBlock.len).sum ∧
      blocks.map (fun b => b.furigana)
        = ([("よ", none), ("む", none)] : List (String × Option String)).map (fun p => p.1)) := by
  have hfind : (Node.elem "div" []
      [Node.elem "div" ["concept_light-representation"]
        [Node.elem "span" ["furigana"]
          [Node.elem "span" [] [Node.text "よ"], Node.elem "span" [] [Node.text "む"]],
         Node.elem "span" ["text"] [Node.text "読む"]]]).find
      (matchTag "div" (some "concept_light-representation"))
      = some (Node.elem "div" ["concept_light-representation"]
          [Node.elem "span" ["furigana"]
            [Node.elem "span" [] [Node.text "よ"], Node.elem "span" [] [Node.text "む"]],
           Node.elem "span" ["text"] [Node.text "読む"]]) := by
    simp [Node.find, Node.find_all, descendants, matchTag]
  have hfuri : (match (Node.elem "div" ["concept_light-representation"]
        [Node.elem "span" ["furigana"]
          [Node.elem "span" [] [Node.text "よ"], Node.elem "span" [] [Node.text "む"]],
         Node.elem "span" ["text"] [Node.text "読む"]]).find
          (matchTag "span" (some "furigana")) with
      | some fdiv => parseFurigana fdiv.childNodes
      | none => Except.ok [])
      = Except.ok ([("よ", none), ("む", none)] : List (String × Option String)) := by
    simp +decide [Node.find, Node.find_all, descendants, matchTag, parseFurigana,
      Node.childNodes, Node.textAll, textsList, String.join]
  have htext : (Node.elem "div" ["concept_light-representation"]
        [Node.elem "span" ["furigana"]
          [Node.elem "span" [] [Node.text "よ"], Node.elem "span" [] [Node.text "む"]],
         Node.elem "span" ["text"] [Node.text "読む"]]).find
          (matchTag "span" (some "text"))
      = some (Node.elem "span" ["text"] [Node.text "読む"]) := by
    simp [Node.find, Node.find_all, descendants, matchTag]
  have hunits : parseTextBlocks (Node.elem "span" ["text"] [Node.text "読む"]).childNodes
      = [⟨"読む", false⟩] := by
    simp +decide [parseTextBlocks, Node.childNodes]
  refine ⟨hfind, ?_⟩
  exact (extract_representation_reconciliation _ _ _ _ _ hfind hfuri htext hunits).2.1
    (by decide) (by decide)

/-- C10: for every input markup without a
`div.concept_light-representation` container, `extract_representation`
returns the empty list — a success value, not an error; the
reconciliation and its failure modes are only reached when the container
is present (src/draw.py lines 113–118). -/
theorem extract_representation_no_container (html : Node)
    (h : html.find (matchTag "div" (some "concept_light-representation")) = none) :
    extract_representation html = .ok [] := by
  simp [extract_representation, h]

/-- C10 witness: a concrete markup fragment with no representation
container yields `.ok []`. -/
theorem extract_representation_no_container_witness :
    (Node.elem "div" ["meaning-wrapper"] [Node.text "x"]).find
        (matchTag "div" (some "concept_light-representation")) = none ∧
    extract_representation (Node.elem "div" ["meaning-wrapper"] [Node.text "x"])
      = .ok [] := by
  have h : (Node.elem "div" ["meaning-wrapper"] [Node.text "x"]).find
      (matchTag "div" (some "concept_light-representation")) = none := by
    simp +decide [Node.find, Node.find_all, descendants, matchTag]
  exact ⟨h, extract_representation_no_container _ h⟩

/-! ## `extract_words_with_sentences` ("jishi scrape/main.py" lines 88–146)

Each `div.concept_light` entry is kept only if it has a
`div.concept_light-representation`; each of its `div.meaning-wrapper`
children is kept only if it contains a `div.sentence`, and the kept
wrappers are cleaned by decomposing section-divider spans, zero-width-space
spans and `supplemental_info` spans (the serialisation to an HTML string
with `'\n'` removed is outside the tree model). -/

/-- `span.meaning-definition-section_divider` (decomposed first). -/
def isDividerSpan (n : Node) : Bool :=
  matchTag "span" (some "meaning-definition-section_divider") n

/-- A span whose `.string` is the zero-width space (decomposed second). -/
def isZwspSpan (n : Node) : Bool :=
  matchTag "span" none n && (n.nodeString == some "\u200b")

/-- `span.supplemental_info` (decomposed third). -/
def isSupplementalSpan (n : Node) : Bool :=
  matchTag "span" (some "supplemental_info") n

/-- The wrapper cleanup ("jishi scrape/main.py" lines 117–134): the three
decompose passes over the copied wrapper, in source order. -/
def cleanupWrapper (w : Node) : Node :=
  match w with
  | .text s => .text s
  | .elem t c ch =>
    .elem t c (removeNodes isSupplementalSpan
      (removeNodes isZwspSpan (removeNodes isDividerSpan ch)))

/-- `wrapper.find('div', class_='sentence')` truthiness: does the wrapper
contain at least one example-sentence block? -/
def hasSentence (w : Node) : Bool :=
  (w.find (matchTag "div" (some "sentence"))).isSome

/-- One extracted entry: the representation node and the kept, cleaned
meaning wrappers. -/
structure ExtractedEntry where
  representation : Node
  meaning_wrappers : List Node

/-- Embedding of `extract_words_with_sentences(soup)` ("jishi
scrape/main.py" lines 88–146). -/
def extract_words_with_sentences (soup : Node) : List ExtractedEntry :=
  (soup.find_all (matchTag "div" (some "concept_light"))).filterMap (fun entry =>
    match entry.find (matchTag "div" (some "concept_light-representation")) with
    | none => none
    | some rep =>
      let mws := ((entry.find_all (matchTag "div" (some "meaning-wrapper"))).filter
          hasSentence).map cleanupWrapper
      if mws.isEmpty then none else some ⟨rep, mws⟩)

/-- C8: every gloss the extraction pass emits (and hence every gloss
`store_extracted_results` ever persists) originates from a meaning-wrapper
whose source markup contains at least one example-sentence block; wrappers
without one are filtered out before the cleanup and never reach the
output. -/
theorem extract_words_with_sentences_gloss_invariant (soup : Node)
    (e : ExtractedEntry) (w : Node)
    (he : e ∈ extract_words_with_sentences soup) (hw : w ∈ e.meaning_wrappers) :
    ∃ entry w0, entry ∈ soup.find_all (matchTag "div" (some "concept_light")) ∧
      w0 ∈ entry.find_all (matchTag "div" (some "meaning-wrapper")) ∧
      hasSentence w0 = true ∧ w = cleanupWrapper w0 := by
  obtain ⟨entry, hentry, hmap⟩ := List.mem_filterMap.mp he
  cases hfind : entry.find (matchTag "div" (some "concept_light-representation")) with
  | none => rw [hfind] at hmap; simp at hmap
  | some rep =>
    rw [hfind] at hmap
    simp only at hmap
    split at hmap
    · simp at hmap
    · rw [Option.some_inj] at hmap
      subst hmap
      obtain ⟨w0, hw0, hweq⟩ := List.mem_map.mp hw
      obtain ⟨hw0mem, hw0sent⟩ := List.mem_filter.mp hw0
      exact ⟨entry, w0, hentry, hw0mem, hw0sent, hweq.symm⟩

/-- The concrete scraped page used by the C8 witness. -/
def sampleWrapper : Node :=
  Node.elem "div" ["meaning-wrapper"] [Node.elem "div" ["sentence"] [Node.text "s"]]

/-- The representation node of the C8 witness page. -/
def sampleRep : Node :=
  Node.elem "div" ["concept_light-representation"] [Node.text "rep"]

/-- The soup of the C8 witness page: one entry, one sentence-bearing
wrapper. -/
def sampleSoup : Node :=
  Node.elem "html" [] [Node.elem "div" ["concept_light"] [sampleRep, sampleWrapper]]

/-- C8 witness: on the concrete page, the single extracted entry's single
gloss traces back to a sentence-bearing source wrapper. -/
theorem extract_words_with_sentences_gloss_invariant_witness :
    (ExtractedEntry.mk sampleRep [cleanupWrapper sampleWrapper]
        ∈ extract_words_with_sentences sampleSoup) ∧
    (cleanupWrapper sampleWrapper
        ∈ (ExtractedEntry.mk sampleRep [cleanupWrapper sampleWrapper]).meaning_wrappers) ∧
    ∃ entry w0, entry ∈ sampleSoup.find_all (matchTag "div" (some "concept_light")) ∧
      w0 ∈ entry.find_all (matchTag "div" (some "meaning-wrapper")) ∧
      hasSentence w0 = true ∧ cleanupWrapper sampleWrapper = cleanupWrapper w0 := by
  have he : ExtractedEntry.mk sampleRep [cleanupWrapper sampleWrapper]
      ∈ extract_words_with_sentences sampleSoup := by
    simp +decide [extract_words_with_sentences, sampleSoup, sampleRep, sampleWrapper,
      Node.find_all, Node.find, descendants, matchTag, hasSentence, List.filterMap]
  have hw : cleanupWrapper sampleWrapper
      ∈ (ExtractedEntry.mk sampleRep [cleanupWrapper sampleWrapper]).meaning_wrappers :=
    List.mem_singleton.mpr rfl
  exact ⟨he, hw,
    extract_words_with_sentences_gloss_invariant sampleSoup _ _ he hw⟩
